import Mathlib

/-!
Verification of the diary-analysis core of the `obs-plugin` repository.

The TypeScript source is shallowly embedded: strings are modelled as
`List Char` (JavaScript strings are sequences of UTF-16 code units; every
character appearing in this code base lies in the BMP, so code units and
code points coincide), JavaScript `number` counts and scores are `Nat`/`Int`,
fallible operations return `Except`/`Option`, and the external `moment`
parser and AI backends are abstract function parameters.
-/

namespace ObsPlugin

/-! ## Basic text primitives shared by the analyzer components -/

/-- Whitespace characters recognised by the JavaScript regex class
backslash-s and by `String.prototype.trim` that can occur in this
code base: ASCII blanks, tab, line feed, carriage return, vertical tab,
form feed, NBSP and the ideographic space U+3000. -/
def isJsWs (c : Char) : Bool :=
  c = ' ' || c = '\t' || c = '\n' || c = '\r' ||
  c = Char.ofNat 0x0b || c = Char.ofNat 0x0c ||
  c = Char.ofNat 0xa0 || c = Char.ofNat 0x3000

/-- Model of `String.prototype.trim`: drop whitespace from both ends. -/
def jsTrim (l : List Char) : List Char :=
  ((l.dropWhile isJsWs).reverse.dropWhile isJsWs).reverse

/-- Numeric value of a nonempty digit string (the semantics of JavaScript
`parseInt` applied to the capture of a digit-run regex group). -/
def digitsToNat (ds : List Char) : Nat :=
  ds.foldl (fun acc c => acc * 10 + (c.toNat - '0'.toNat)) 0

/-- Auxiliary scanner for `countOccur`: while the cooldown counter is
positive the scanner is still inside a previously matched occurrence and
skips characters without testing, mirroring how a global JavaScript regex
resumes searching at `lastIndex` after each match. -/
def countOccurAux (pat : List Char) : Nat → List Char → Nat
  | _, [] => 0
  | 0, c :: rest =>
      if pat.isPrefixOf (c :: rest) then
        1 + countOccurAux pat (pat.length - 1) rest
      else
        countOccurAux pat 0 rest
  | k + 1, _ :: rest => countOccurAux pat k rest

/-- Number of non-overlapping, leftmost-first occurrences of `pat` in a
text: the length of the match array of `text.match(new RegExp(pat, 'g'))`
for a pattern with no regex metacharacters. -/
def countOccur (pat text : List Char) : Nat :=
  countOccurAux pat 0 text

/-- Number of occurrences of an element in a list (the frequency a
JavaScript counting loop computes for one key). -/
def occCount {α : Type} [DecidableEq α] (a : α) : List α → Nat
  | [] => 0
  | b :: l => occCount a l + if a = b then 1 else 0

/-- One step of insertion-ordered frequency counting, the body of
`keywordCount.set(k, (keywordCount.get(k) || 0) + 1)` on a JavaScript
`Map`: increment the entry of the key if present (keeping its position),
otherwise append a fresh entry with count 1 at the end. -/
def bumpCount {α : Type} [DecidableEq α] : List (α × Nat) → α → List (α × Nat)
  | [], w => [(w, 1)]
  | (k, c) :: rest, w =>
      if k = w then (k, c + 1) :: rest else (k, c) :: bumpCount rest w

/-- Insertion-ordered frequency table of a list of keys, the contents of a
JavaScript `Map` after counting every element of the list in order. -/
def countTokens {α : Type} [DecidableEq α] (ws : List α) : List (α × Nat) :=
  ws.foldl bumpCount []

/-- Value stored under a key in an association list, 0 when absent
(the `(map.get(k) || 0)` idiom). -/
def valOf {α : Type} [DecidableEq α] : List (α × Nat) → α → Nat
  | [], _ => 0
  | (k, c) :: rest, v => if k = v then c else valOf rest v

/-- Keys of an association list in order. -/
def keysOf {α : Type} (m : List (α × Nat)) : List α := m.map Prod.fst

/-- One step of JavaScript `Set` construction: add the element at the end
unless it is already present. -/
def insertSeen {α : Type} [DecidableEq α] (acc : List α) (x : α) : List α :=
  if x ∈ acc then acc else acc ++ [x]

/-- Fold JavaScript `Set` insertion over a list, starting from a seed. -/
def setFold {α : Type} [DecidableEq α] (seen ws : List α) : List α :=
  ws.foldl insertSeen seen

/-- Insertion-ordered deduplication, the semantics of
`[...new Set(list)]` in JavaScript. -/
def setDedup {α : Type} [DecidableEq α] (ws : List α) : List α :=
  setFold [] ws

/-- Insert an element into a list sorted by weakly decreasing count,
placing it before the first element of smaller or equal count. -/
def insertDesc {α : Type} (x : α × Nat) : List (α × Nat) → List (α × Nat)
  | [] => [x]
  | y :: ys => if y.2 ≤ x.2 then x :: y :: ys else y :: insertDesc x ys

/-- Stable sort by weakly decreasing count. ECMAScript 2019 requires
`Array.prototype.sort` to be stable, and a stable sort under the total
preorder induced by the comparator `(a, b) => b[1] - a[1]` has a unique
result, so this insertion sort is a faithful model of the source's sort
call: elements of equal count keep their relative input order. -/
def sortByCountDesc {α : Type} (l : List (α × Nat)) : List (α × Nat) :=
  l.foldr insertDesc []

/-! ### Lemmas about insertion-ordered counting -/

theorem keysOf_bumpCount {α : Type} [DecidableEq α]
    (m : List (α × Nat)) (w : α) :
    keysOf (bumpCount m w) = insertSeen (keysOf m) w := by
  induction m with
  | nil => simp [bumpCount, keysOf, insertSeen]
  | cons p rest ih =>
    obtain ⟨k, c⟩ := p
    by_cases hk : k = w
    · subst hk
      simp [bumpCount, keysOf, insertSeen]
    · simp only [bumpCount, if_neg hk, keysOf, List.map_cons] at ih ⊢
      rw [ih]
      simp only [insertSeen, List.mem_cons]
      have hkw : ¬ w = k := fun h => hk h.symm
      by_cases hmem : w ∈ (rest.map Prod.fst)
      · simp [hmem, hkw]
      · simp [hmem, hkw]

theorem valOf_bumpCount {α : Type} [DecidableEq α]
    (m : List (α × Nat)) (w v : α) :
    valOf (bumpCount m w) v = valOf m v + (if v = w then 1 else 0) := by
  induction m with
  | nil =>
    by_cases hv : v = w
    · subst hv; simp [bumpCount, valOf]
    · have : ¬ w = v := fun h => hv h.symm
      simp [bumpCount, valOf, hv, this]
  | cons p rest ih =>
    obtain ⟨k, c⟩ := p
    by_cases hk : k = w
    · subst hk
      by_cases hv : k = v
      · subst hv; simp [bumpCount, valOf]
      · have : ¬ v = k := fun h => hv h.symm
        simp [bumpCount, valOf, hv, this]
    · by_cases hv : k = v
      · subst hv
        simp [bumpCount, hk, valOf]
      · simp [bumpCount, hk, valOf, hv, ih]

theorem valOf_reconstruct {α : Type} [DecidableEq α]
    (m : List (α × Nat)) (h : (keysOf m).Nodup) :
    (keysOf m).map (fun w => (w, valOf m w)) = m := by
  induction m with
  | nil => simp [keysOf]
  | cons p rest ih =>
    obtain ⟨k, c⟩ := p
    simp only [keysOf, List.map_cons, List.nodup_cons] at h ⊢
    obtain ⟨hk, hrest⟩ := h
    have htail : List.map (fun w => (w, valOf ((k, c) :: rest) w)) (List.map Prod.fst rest)
        = List.map (fun w => (w, valOf rest w)) (List.map Prod.fst rest) := by
      apply List.map_congr_left
      intro a ha
      have hak : ¬ k = a := fun h2 => hk (h2 ▸ ha)
      simp [valOf, hak]
    have ih2 := ih hrest
    simp only [keysOf] at ih2
    rw [htail, ih2]
    simp [valOf]

theorem nodup_insertSeen {α : Type} [DecidableEq α]
    (l : List α) (x : α) (h : l.Nodup) : (insertSeen l x).Nodup := by
  unfold insertSeen
  split
  · exact h
  · next hx => simp [List.nodup_append, h, hx]

theorem mem_insertSeen {α : Type} [DecidableEq α]
    (l : List α) (x a : α) : a ∈ insertSeen l x ↔ a ∈ l ∨ a = x := by
  unfold insertSeen
  split
  · next hx =>
    constructor
    · exact fun h => Or.inl h
    · rintro (h | rfl)
      · exact h
      · exact hx
  · simp

/-- Core invariant of insertion-ordered counting: folding `bumpCount` over
a token list extends the key order by first-seen `Set` insertion and adds
each token's occurrence count to the stored values. -/
theorem foldl_bumpCount {α : Type} [DecidableEq α] (ws : List α) :
    ∀ m : List (α × Nat), (keysOf m).Nodup →
      ws.foldl bumpCount m =
        (setFold (keysOf m) ws).map (fun w => (w, valOf m w + occCount w ws)) := by
  induction ws with
  | nil =>
    intro m hm
    simp only [List.foldl_nil, setFold, occCount]
    exact (valOf_reconstruct m hm).symm
  | cons w ws2 ih =>
    intro m hm
    have hnd : (keysOf (bumpCount m w)).Nodup := by
      rw [keysOf_bumpCount]
      exact nodup_insertSeen _ _ hm
    rw [List.foldl_cons, ih (bumpCount m w) hnd]
    have hsf : setFold (keysOf m) (w :: ws2) =
        setFold (keysOf (bumpCount m w)) ws2 := by
      rw [keysOf_bumpCount]; rfl
    rw [hsf]
    apply List.map_congr_left
    intro v _
    rw [valOf_bumpCount]
    simp only [occCount, Prod.mk.injEq, true_and]
    by_cases hv : v = w <;> simp [hv] <;> omega

/-- The frequency table produced by the source's counting loop lists keys
in first-seen order with their exact occurrence counts. -/
theorem countTokens_spec {α : Type} [DecidableEq α] (ws : List α) :
    countTokens ws = (setDedup ws).map (fun w => (w, occCount w ws)) := by
  have h := foldl_bumpCount ws [] (by simp [keysOf])
  simpa [countTokens, setDedup, keysOf, valOf] using h

/-! ### Lemmas about JavaScript Set deduplication -/

theorem mem_setFold {α : Type} [DecidableEq α] (ws : List α) :
    ∀ (seen : List α) (a : α), a ∈ setFold seen ws ↔ a ∈ seen ∨ a ∈ ws := by
  induction ws with
  | nil => intro seen a; simp [setFold]
  | cons x ws2 ih =>
    intro seen a
    have : setFold seen (x :: ws2) = setFold (insertSeen seen x) ws2 := rfl
    rw [this, ih, mem_insertSeen]
    simp only [List.mem_cons]
    tauto

theorem nodup_setFold {α : Type} [DecidableEq α] (ws : List α) :
    ∀ seen : List α, seen.Nodup → (setFold seen ws).Nodup := by
  induction ws with
  | nil => intro seen h; exact h
  | cons x ws2 ih =>
    intro seen h
    exact ih (insertSeen seen x) (nodup_insertSeen seen x h)

theorem setFold_eq_append {α : Type} [DecidableEq α] (ws : List α) :
    ∀ seen : List α, ∃ t, setFold seen ws = seen ++ t ∧ t.Sublist ws := by
  induction ws with
  | nil => intro seen; exact ⟨[], by simp [setFold]⟩
  | cons x ws2 ih =>
    intro seen
    by_cases hx : x ∈ seen
    · obtain ⟨t, ht, hsub⟩ := ih seen
      refine ⟨t, ?_, hsub.cons x⟩
      have hins : insertSeen seen x = seen := by simp [insertSeen, hx]
      calc setFold seen (x :: ws2) = setFold (insertSeen seen x) ws2 := rfl
        _ = setFold seen ws2 := by rw [hins]
        _ = seen ++ t := ht
    · obtain ⟨t, ht, hsub⟩ := ih (seen ++ [x])
      refine ⟨x :: t, ?_, hsub.cons₂ x⟩
      have hins : insertSeen seen x = seen ++ [x] := by simp [insertSeen, hx]
      calc setFold seen (x :: ws2) = setFold (insertSeen seen x) ws2 := rfl
        _ = setFold (seen ++ [x]) ws2 := by rw [hins]
        _ = seen ++ [x] ++ t := ht
        _ = seen ++ x :: t := by simp

theorem setDedup_nodup {α : Type} [DecidableEq α] (ws : List α) :
    (setDedup ws).Nodup :=
  nodup_setFold ws [] List.nodup_nil

theorem setDedup_sublist {α : Type} [DecidableEq α] (ws : List α) :
    (setDedup ws).Sublist ws := by
  obtain ⟨t, ht, hsub⟩ := setFold_eq_append ws []
  simpa [setDedup, ht] using hsub

theorem mem_setDedup {α : Type} [DecidableEq α] (ws : List α) (a : α) :
    a ∈ setDedup ws ↔ a ∈ ws := by
  rw [setDedup, mem_setFold]
  simp

/-! ### Lemmas about the stable descending sort -/

theorem perm_insertDesc {α : Type} (x : α × Nat) (l : List (α × Nat)) :
    List.Perm (insertDesc x l) (x :: l) := by
  induction l with
  | nil => exact List.Perm.refl _
  | cons y ys ih =>
    unfold insertDesc
    split
    · exact List.Perm.refl _
    · exact (ih.cons y).trans (List.Perm.swap x y ys)

theorem sortByCountDesc_perm {α : Type} (l : List (α × Nat)) :
    List.Perm (sortByCountDesc l) l := by
  induction l with
  | nil => exact List.Perm.refl _
  | cons x xs ih =>
    have : sortByCountDesc (x :: xs) = insertDesc x (sortByCountDesc xs) := rfl
    rw [this]
    exact (perm_insertDesc x (sortByCountDesc xs)).trans (ih.cons x)

theorem mem_insertDesc {α : Type} {x z : α × Nat} {l : List (α × Nat)}
    (h : z ∈ insertDesc x l) : z = x ∨ z ∈ l := by
  have := (perm_insertDesc x l).mem_iff.mp h
  simpa using this

theorem pairwise_insertDesc {α : Type} (x : α × Nat) (l : List (α × Nat))
    (h : l.Pairwise (fun a b => b.2 ≤ a.2)) :
    (insertDesc x l).Pairwise (fun a b => b.2 ≤ a.2) := by
  induction l with
  | nil => simp [insertDesc]
  | cons y ys ih =>
    rw [List.pairwise_cons] at h
    obtain ⟨hy, hys⟩ := h
    unfold insertDesc
    split
    · next hle =>
      rw [List.pairwise_cons]
      refine ⟨?_, List.pairwise_cons.mpr ⟨hy, hys⟩⟩
      intro z hz
      rcases List.mem_cons.mp hz with rfl | hz2
      · exact hle
      · exact le_trans (hy z hz2) hle
    · next hgt =>
      rw [List.pairwise_cons]
      refine ⟨?_, ih hys⟩
      intro z hz
      rcases mem_insertDesc hz with rfl | hz2
      · omega
      · exact hy z hz2

theorem sortByCountDesc_sorted {α : Type} (l : List (α × Nat)) :
    (sortByCountDesc l).Pairwise (fun a b => b.2 ≤ a.2) := by
  induction l with
  | nil => simp [sortByCountDesc]
  | cons x xs ih => exact pairwise_insertDesc x (sortByCountDesc xs) ih

theorem filter_insertDesc {α : Type} (x : α × Nat) (l : List (α × Nat))
    (n : Nat) :
    (insertDesc x l).filter (fun p => p.2 = n) =
      if x.2 = n then x :: l.filter (fun p => p.2 = n)
      else l.filter (fun p => p.2 = n) := by
  induction l with
  | nil => by_cases hx : x.2 = n <;> simp [insertDesc, hx]
  | cons y ys ih =>
    unfold insertDesc
    split
    · next hle =>
      by_cases hx : x.2 = n <;> simp [List.filter_cons, hx]
    · next hgt =>
      by_cases hx : x.2 = n
      · have hy : ¬ y.2 = n := by omega
        simp [List.filter_cons, hy, ih, hx]
      · simp [List.filter_cons, ih, hx]

/-- Stability of the model sort: for every count value, the elements
carrying that count appear in the output in exactly their input order. -/
theorem sortByCountDesc_stable {α : Type} (l : List (α × Nat)) (n : Nat) :
    (sortByCountDesc l).filter (fun p => p.2 = n) =
      l.filter (fun p => p.2 = n) := by
  induction l with
  | nil => rfl
  | cons x xs ih =>
    have hstep : sortByCountDesc (x :: xs) = insertDesc x (sortByCountDesc xs) := rfl
    rw [hstep, filter_insertDesc, List.filter_cons]
    by_cases hx : x.2 = n <;> simp [hx, ih]

/-! ## ContentAnalyzer.analyzeMoodWithDictionary (claim C2) -/

/-- The fixed positive-sentiment dictionary of `analyzeMoodWithDictionary`. -/
def positiveWords : List (List Char) :=
  ["开心".data, "快乐".data, "高兴".data, "幸福".data,
   "满意".data, "成功".data, "喜欢".data]

/-- The fixed negative-sentiment dictionary of `analyzeMoodWithDictionary`. -/
def negativeWords : List (List Char) :=
  ["难过".data, "伤心".data, "失望".data, "焦虑".data,
   "痛苦".data, "生气".data, "讨厌".data]

/-- Total number of occurrences of positive-dictionary words in the text. -/
def positiveCount (text : List Char) : Nat :=
  positiveWords.foldl (fun count word => count + countOccur word text) 0

/-- Total number of occurrences of negative-dictionary words in the text. -/
def negativeCount (text : List Char) : Nat :=
  negativeWords.foldl (fun count word => count + countOccur word text) 0

/-- Embedding of `ContentAnalyzer.analyzeMoodWithDictionary`: start from the
neutral score 3, add `min 2 (positive - negative)` when positive occurrences
dominate, subtract `min 2 (negative - positive)` when negative ones do. -/
def analyzeMoodWithDictionary (text : List Char) : Int :=
  let p := positiveCount text
  let n := negativeCount text
  if n < p then 3 + min 2 ((p : Int) - (n : Int))
  else if p < n then 3 - min 2 ((n : Int) - (p : Int))
  else 3

/-! ## ContentAnalyzer.generateSimpleSummary (claim C8) -/

/-- Prefix of the text up to (excluding) the first blank-line paragraph
break, i.e. the first element of the JavaScript split on the two-character
separator of two consecutive line feeds. -/
def firstParagraph : List Char → List Char
  | [] => []
  | '\n' :: '\n' :: _ => []
  | c :: rest => c :: firstParagraph rest

/-- Embedding of `ContentAnalyzer.generateSimpleSummary`: the first
paragraph verbatim when it has at most 100 characters, otherwise its first
100 characters followed by a three-dot ellipsis. -/
def generateSimpleSummary (text : List Char) : List Char :=
  let para := firstParagraph text
  if para.length ≤ 100 then para
  else para.take 100 ++ "...".data

/-! ## Theorems for claims C2 and C8 -/

/-- C2: for every input text the heuristic mood scorer returns
3 + min 2 (p - n) when the positive occurrence count p exceeds the negative
count n, 3 - min 2 (n - p) when n exceeds p, and exactly 3 when p = n; the
result always lies in [1, 5], and in particular p = 2, n = 0 scores exactly
5 while n = 3, p = 0 scores exactly 1. -/
theorem analyzeMoodWithDictionary_spec (text : List Char) :
    (negativeCount text < positiveCount text →
      analyzeMoodWithDictionary text =
        3 + min 2 ((positiveCount text : Int) - (negativeCount text : Int))) ∧
    (positiveCount text < negativeCount text →
      analyzeMoodWithDictionary text =
        3 - min 2 ((negativeCount text : Int) - (positiveCount text : Int))) ∧
    (positiveCount text = negativeCount text →
      analyzeMoodWithDictionary text = 3) ∧
    1 ≤ analyzeMoodWithDictionary text ∧ analyzeMoodWithDictionary text ≤ 5 ∧
    (positiveCount text = 2 → negativeCount text = 0 →
      analyzeMoodWithDictionary text = 5) ∧
    (negativeCount text = 3 → positiveCount text = 0 →
      analyzeMoodWithDictionary text = 1) := by
  unfold analyzeMoodWithDictionary
  set p := positiveCount text with hp
  set n := negativeCount text with hn
  refine ⟨?_, ?_, ?_, ?_, ?_, ?_, ?_⟩ <;>
    · simp only
      split <;> try split
      all_goals (intros; omega)

/-- Witness for C2: the text 开心快乐 has positive count 2 and negative
count 0, and the scorer gives it exactly 5; the text 难过伤心失望 has
negative count 3 and positive count 0, and the scorer gives it exactly 1. -/
theorem analyzeMoodWithDictionary_spec_witness :
    analyzeMoodWithDictionary "开心快乐".data = 5 ∧
    analyzeMoodWithDictionary "难过伤心失望".data = 1 := by
  constructor
  · exact (analyzeMoodWithDictionary_spec "开心快乐".data).2.2.2.2.2.1
      (by decide) (by decide)
  · exact (analyzeMoodWithDictionary_spec "难过伤心失望".data).2.2.2.2.2.2
      (by decide) (by decide)

/-- C8: the heuristic summary equals the first blank-line-delimited
paragraph when that prefix is at most 100 characters, otherwise its first
100 characters followed by the ellipsis marker, and the result never
exceeds 103 characters. -/
theorem generateSimpleSummary_spec (text : List Char) :
    ((firstParagraph text).length ≤ 100 →
      generateSimpleSummary text = firstParagraph text) ∧
    (100 < (firstParagraph text).length →
      generateSimpleSummary text =
        (firstParagraph text).take 100 ++ "...".data) ∧
    (generateSimpleSummary text).length ≤ 103 := by
  unfold generateSimpleSummary
  simp only
  refine ⟨?_, ?_, ?_⟩
  · intro h; simp [h]
  · intro h; rw [if_neg (by omega)]
  · split
    · omega
    · simp only [List.length_append, List.length_take]
      have h3 : (['.', '.', '.'] : List Char).length = 3 := rfl
      omega

/-- Witness for C8: a two-character text is returned verbatim, and a
120-character text is cut to its first 100 characters plus the ellipsis. -/
theorem generateSimpleSummary_spec_witness :
    generateSimpleSummary "你好".data = firstParagraph "你好".data ∧
    generateSimpleSummary (List.replicate 120 'a') =
      (firstParagraph (List.replicate 120 'a')).take 100 ++ "...".data := by
  constructor
  · exact (generateSimpleSummary_spec "你好".data).1 (by decide)
  · exact (generateSimpleSummary_spec (List.replicate 120 'a')).2.1 (by decide)

/-! ## Data model

`Date` values are modelled as integers (an order-isomorphic stand-in for
JavaScript millisecond timestamps); `number` mood scores as `Int`. -/

/-- Metadata extracted from a diary file: optional title, tags, optional
explicit mood value (`title?: string; tags?: string[]; mood?: number`). -/
structure Metadata where
  title : Option String
  tags : List String
  mood : Option Int
deriving DecidableEq

/-- A parsed diary record (`DiaryContent` in the source). -/
structure DiaryContent where
  date : Int
  content : String
  metadata : Metadata
deriving DecidableEq

/-- Per-entry analysis output (`AnalysisResult` in the source). -/
structure AnalysisResult where
  keywords : List String
  moodScore : Int
  summary : String
  activities : List String
deriving DecidableEq

/-- A timeline entry (`TimelineEntry` in the source). -/
structure TimelineEntry where
  id : String
  date : Int
  title : String
  summary : String
  keywords : List String
  moodScore : Int
  activities : List String
deriving DecidableEq

/-! ## Splitting text on separator characters -/

/-- Split a character list at every occurrence of a separator character,
the semantics of JavaScript `split` on a single-character-class regex:
empty segments are kept (`"a。".split` yields a trailing empty string). -/
def splitOnChars (seps : List Char) : List Char → List (List Char)
  | [] => [[]]
  | c :: rest =>
      if c ∈ seps then [] :: splitOnChars seps rest
      else
        match splitOnChars seps rest with
        | s :: ss => (c :: s) :: ss
        | [] => [[c]]

/-! ## ContentAnalyzer.extractKeywordsWithFrequency (claim C3) -/

/-- Characters the keyword tokenizer keeps: CJK ideographs U+4E00..U+9FA5,
ASCII letters and ASCII digits — the complement of the character class the
source replaces with a space. -/
def isKeptChar (c : Char) : Bool :=
  (0x4e00 ≤ c.toNat && c.toNat ≤ 0x9fa5) ||
  ('a' ≤ c && c ≤ 'z') || ('A' ≤ c && c ≤ 'Z') || ('0' ≤ c && c ≤ '9')

/-- Replace every non-kept character by a space. -/
def cleanChar (c : Char) : Char := if isKeptChar c then c else ' '

/-- Tokenization pipeline of `extractKeywordsWithFrequency`: clean the
text, split on whitespace, keep tokens longer than one character. After
cleaning, every whitespace character is a plain space, and splitting at
each single space instead of at whitespace runs only adds empty segments,
all of which the length filter discards. -/
def tokenize (text : List Char) : List (List Char) :=
  (splitOnChars [' '] (text.map cleanChar)).filter (fun w => 1 < w.length)

/-- Embedding of `ContentAnalyzer.extractKeywordsWithFrequency`: count
token frequencies in encounter order, sort stably by descending count,
take the first `maxKeywords` keys. -/
def extractKeywordsWithFrequency (maxKeywords : Nat) (text : List Char) :
    List (List Char) :=
  ((sortByCountDesc (countTokens (tokenize text))).take maxKeywords).map Prod.fst

/-- C3: heuristic keyword extraction tokenizes the cleaned text, discards
length-one tokens, counts frequencies in first-seen order, sorts by
descending count with a stable tie-break, and returns the top
`maxKeywords` tokens; on token counts (aa : 1, bb : 3) with
`maxKeywords` 1 it returns exactly the token bb. -/
theorem extractKeywordsWithFrequency_spec (maxKeywords : Nat) (text : List Char) :
    extractKeywordsWithFrequency maxKeywords text =
      ((sortByCountDesc ((setDedup (tokenize text)).map
          (fun w => (w, occCount w (tokenize text))))).take maxKeywords).map Prod.fst
    ∧ (sortByCountDesc (countTokens (tokenize text))).Pairwise
        (fun a b => b.2 ≤ a.2)
    ∧ List.Perm (sortByCountDesc (countTokens (tokenize text)))
        (countTokens (tokenize text))
    ∧ (∀ n, (sortByCountDesc (countTokens (tokenize text))).filter
          (fun p => p.2 = n)
        = (countTokens (tokenize text)).filter (fun p => p.2 = n))
    ∧ (∀ w, w ∈ tokenize text → 1 < w.length)
    ∧ extractKeywordsWithFrequency 1 "aa bb bb bb".data = ["bb".data] := by
  refine ⟨?_, sortByCountDesc_sorted _, sortByCountDesc_perm _,
    fun n => sortByCountDesc_stable _ n, ?_, ?_⟩
  · rw [extractKeywordsWithFrequency, countTokens_spec]
  · intro w hw
    rw [tokenize] at hw
    have := List.of_mem_filter hw
    simpa using this
  · rfl

/-! ## TimelineGenerator.findTopKeywords (claim C6) -/

/-- Concatenation of the keyword lists of all entries in order; the
sequence of keys the source's nested `forEach` counting loop visits. -/
def allKeywords (entries : List TimelineEntry) : List String :=
  entries.foldr (fun e acc => e.keywords ++ acc) []

/-- Embedding of `TimelineGenerator.findTopKeywords`: count keyword
frequency across all entries in an insertion-ordered map, sort the entry
pairs stably by descending count, truncate to `limit` (the source's
default is 10). -/
def findTopKeywords (entries : List TimelineEntry) (limit : Nat) :
    List (String × Nat) :=
  (sortByCountDesc
    (entries.foldl (fun m e => e.keywords.foldl bumpCount m) [])).take limit

theorem foldl_bumpCount_entries (entries : List TimelineEntry) :
    ∀ m : List (String × Nat),
      entries.foldl (fun m e => e.keywords.foldl bumpCount m) m =
        (allKeywords entries).foldl bumpCount m := by
  induction entries with
  | nil => intro m; rfl
  | cons e es ih =>
    intro m
    have h1 : (e :: es).foldl (fun m e => e.keywords.foldl bumpCount m) m =
        es.foldl (fun m e => e.keywords.foldl bumpCount m)
          (e.keywords.foldl bumpCount m) := rfl
    rw [h1, ih]
    have h2 : allKeywords (e :: es) = e.keywords ++ allKeywords es := rfl
    rw [h2, List.foldl_append]

/-- Sample entry used to exhibit the stable tie-break: its keyword list
mentions 工作 before 学习. -/
def tieEntry : TimelineEntry :=
  { id := "e", date := 0, title := "t", summary := "s",
    keywords := ["工作", "学习"], moodScore := 3, activities := [] }

/-- C6: `findTopKeywords` counts keyword frequency across all entries in
first-encountered order, sorts by descending count with a stable
tie-break, and truncates to the limit; over three entries in which 工作
and 学习 each occur 3 times with 工作 encountered first, 工作 is returned
before 学习. -/
theorem findTopKeywords_spec (entries : List TimelineEntry) (limit : Nat) :
    findTopKeywords entries limit =
      (sortByCountDesc ((setDedup (allKeywords entries)).map
        (fun w => (w, occCount w (allKeywords entries))))).take limit
    ∧ (sortByCountDesc (countTokens (allKeywords entries))).Pairwise
        (fun a b => b.2 ≤ a.2)
    ∧ (∀ n, (sortByCountDesc (countTokens (allKeywords entries))).filter
          (fun p => p.2 = n)
        = (countTokens (allKeywords entries)).filter (fun p => p.2 = n))
    ∧ (findTopKeywords entries limit).length ≤ limit
    ∧ findTopKeywords (List.replicate 3 tieEntry) 10 =
        [("工作", 3), ("学习", 3)] := by
  refine ⟨?_, sortByCountDesc_sorted _, fun n => sortByCountDesc_stable _ n,
    ?_, ?_⟩
  · unfold findTopKeywords
    rw [foldl_bumpCount_entries]
    rw [show (allKeywords entries).foldl bumpCount []
          = countTokens (allKeywords entries) from rfl]
    rw [countTokens_spec]
  · exact List.length_take_le _ _
  · rfl

/-! ## TimelineGenerator.filterEntriesByDateRange (claim C7) -/

/-- Embedding of `TimelineGenerator.filterEntriesByDateRange`: keep an
entry unless a supplied start bound exceeds its date or a supplied end
bound is below its date; a `Date` object is always truthy, so the source's
`startDate &&` guard is exactly the option match. -/
def filterEntriesByDateRange (entries : List TimelineEntry)
    (startDate endDate : Option Int) : List TimelineEntry :=
  entries.filter fun entry =>
    (match startDate with
     | some s => !(entry.date < s)
     | none => true) &&
    (match endDate with
     | some t => !(t < entry.date)
     | none => true)

/-- Entry dated 2024-01-01 (dates written as YYYYMMDD integers). -/
def entryJan1 : TimelineEntry :=
  { id := "a", date := 20240101, title := "t", summary := "s",
    keywords := [], moodScore := 3, activities := [] }

/-- Entry dated 2024-02-01. -/
def entryFeb1 : TimelineEntry :=
  { id := "b", date := 20240201, title := "t", summary := "s",
    keywords := [], moodScore := 3, activities := [] }

/-- C7: `filterEntriesByDateRange` keeps exactly the entries whose date
lies inclusively within the supplied bounds, an omitted bound imposes no
constraint, and with bounds [2024-01-01, 2024-01-31] an entry dated
2024-01-01 is kept while one dated 2024-02-01 is dropped. -/
theorem filterEntriesByDateRange_spec (entries : List TimelineEntry)
    (startDate endDate : Option Int) :
    (∀ x, x ∈ filterEntriesByDateRange entries startDate endDate ↔
        x ∈ entries ∧ (∀ s, startDate = some s → s ≤ x.date) ∧
          (∀ t, endDate = some t → x.date ≤ t))
    ∧ (filterEntriesByDateRange entries startDate endDate).Sublist entries
    ∧ filterEntriesByDateRange entries none none = entries
    ∧ filterEntriesByDateRange [entryJan1, entryFeb1]
        (some 20240101) (some 20240131) = [entryJan1] := by
  refine ⟨?_, List.filter_sublist _, ?_, ?_⟩
  · intro x
    rw [filterEntriesByDateRange, List.mem_filter]
    cases startDate <;> cases endDate <;> simp <;> omega
  · simp [filterEntriesByDateRange]
  · rfl

/-- Witness for C3: the token bb is produced by the pipeline and, being a
member of the tokenization of the sample text, has length above one. -/
theorem extractKeywordsWithFrequency_spec_witness :
    1 < ("bb".data).length :=
  (extractKeywordsWithFrequency_spec 1 "aa bb bb bb".data).2.2.2.2.1
    "bb".data (by decide)

/-- Witness for C6: instantiating the stability conjunct at count 3 on the
three tie entries. -/
theorem findTopKeywords_spec_witness :
    (sortByCountDesc (countTokens (allKeywords (List.replicate 3 tieEntry)))).filter
        (fun p => p.2 = 3)
      = (countTokens (allKeywords (List.replicate 3 tieEntry))).filter
        (fun p => p.2 = 3) :=
  (findTopKeywords_spec (List.replicate 3 tieEntry) 10).2.2.1 3

/-- Witness for C7: the membership characterization puts the entry dated
2024-01-01 inside the filtered list for the bounds [2024-01-01, 2024-01-31]. -/
theorem filterEntriesByDateRange_spec_witness :
    entryJan1 ∈ filterEntriesByDateRange [entryJan1, entryFeb1]
      (some 20240101) (some 20240131) :=
  ((filterEntriesByDateRange_spec [entryJan1, entryFeb1]
      (some 20240101) (some 20240131)).1 entryJan1).mpr
    ⟨by decide,
     by intro s hs; injection hs with h; subst h; decide,
     by intro t ht; injection ht with h; subst h; decide⟩

/-! ## ContentAnalyzer.analyzeMoodScore (claim C5) -/

/-- Attempt to match the mood-marker regex at the head of the text: the
characters 心情, a full-width or ASCII colon, optional whitespace, then at
least one digit, whose maximal run is the capture. -/
def matchMoodAt : List Char → Option Nat
  | '心' :: '情' :: c :: rest =>
      if c = '：' ∨ c = ':' then
        let ds := (rest.dropWhile isJsWs).takeWhile Char.isDigit
        if ds = [] then none else some (digitsToNat ds)
      else none
  | _ => none

/-- Leftmost match of the mood-marker regex over the whole text, the value
of `parseInt(moodMatch[1])` for `text.match` of the 心情 pattern. -/
def findMood : List Char → Option Nat
  | [] => none
  | c :: rest =>
      match matchMoodAt (c :: rest) with
      | some n => some n
      | none => findMood rest

/-- Mood part of `DiaryParser.extractMetadata`: the parser stores
`parseInt` of the capture of the identical 心情 regex, with no range
check, so it is the same leftmost-match function. -/
def extractMetadataMood (content : List Char) : Option Nat := findMood content

/-- Hexadecimal digit test for the JavaScript `parseInt` auto-radix case. -/
def isHexDigitCh (c : Char) : Bool :=
  c.isDigit || ('a' ≤ c && c ≤ 'f') || ('A' ≤ c && c ≤ 'F')

/-- Value of a hexadecimal digit. -/
def hexVal (c : Char) : Nat :=
  if c.isDigit then c.toNat - '0'.toNat
  else if 'a' ≤ c && c ≤ 'f' then c.toNat - 'a'.toNat + 10
  else c.toNat - 'A'.toNat + 10

/-- Parse a maximal leading run of decimal digits; none when empty. -/
def parseDecDigits (l : List Char) : Option Nat :=
  let ds := l.takeWhile Char.isDigit
  if ds = [] then none else some (digitsToNat ds)

/-- Parse a leading magnitude the way `parseInt` with no radix argument
does: a 0x/0X prefix switches to hexadecimal, otherwise decimal. -/
def parseMagnitude : List Char → Option Nat
  | '0' :: c :: rest =>
      if c = 'x' ∨ c = 'X' then
        let ds := rest.takeWhile isHexDigitCh
        if ds = [] then none
        else some (ds.foldl (fun acc d => acc * 16 + hexVal d) 0)
      else parseDecDigits ('0' :: c :: rest)
  | l => parseDecDigits l

/-- Model of JavaScript `parseInt(s)`: skip leading whitespace, read an
optional sign, then a leading numeral; `none` models `NaN`. Trailing
garbage is ignored. -/
def jsParseInt (s : List Char) : Option Int :=
  match s.dropWhile isJsWs with
  | '-' :: rest => (parseMagnitude rest).map (fun n => -(n : Int))
  | '+' :: rest => (parseMagnitude rest).map (fun n => (n : Int))
  | t => (parseMagnitude t).map (fun n => (n : Int))

/-- The prompt `analyzeMoodWithAI` sends to the configured backend. -/
def moodPrompt (text : List Char) : List Char :=
  "请分析以下日记文本的情感倾向，给出1-5的分数（1最消极，5最积极）：\n\n".data ++ text

/-- Embedding of `ContentAnalyzer.analyzeMoodWithAI`: parse the backend
response as an integer and keep it when it lies in [1, 5], defaulting to 3
otherwise (`parseInt` returning `NaN` fails both comparisons). -/
def analyzeMoodWithAI (complete : List Char → List Char) (text : List Char) : Int :=
  match jsParseInt (complete (moodPrompt text)) with
  | some score => if 1 ≤ score ∧ score ≤ 5 then score else 3
  | none => 3

/-- Embedding of `ContentAnalyzer.analyzeMoodScore`: an explicit 心情
marker value in [1, 5] is returned at once; otherwise the configured
backend is consulted when present, and the dictionary heuristic when not.
The two networked services are interchangeable completion functions, so a
configured backend is a single `complete` function. -/
def analyzeMoodScore (backend : Option (List Char → List Char))
    (text : List Char) : Int :=
  match findMood text with
  | some mood =>
      if 1 ≤ mood ∧ mood ≤ 5 then (mood : Int)
      else
        match backend with
        | some complete => analyzeMoodWithAI complete text
        | none => analyzeMoodWithDictionary text
  | none =>
      match backend with
      | some complete => analyzeMoodWithAI complete text
      | none => analyzeMoodWithDictionary text

/-- A backend response is invalid for mood scoring when it parses to no
integer at all or to an integer outside [1, 5]. -/
def invalidMoodResponse (r : List Char) : Prop :=
  ∀ s, jsParseInt r = some s → ¬(1 ≤ s ∧ s ≤ 5)

/-- C5: an explicit mood value matched from the text via the 心情 marker
(the same value the parser stores in the record metadata) is returned
unmodified whenever it lies in [1, 5], whatever backend is configured; and
when a backend is configured and no valid explicit value exists, an
unparseable or out-of-range backend response yields the default 3. -/
theorem analyzeMoodScore_spec (backend : Option (List Char → List Char))
    (text : List Char) :
    extractMetadataMood text = findMood text
    ∧ (∀ n, findMood text = some n → 1 ≤ n → n ≤ 5 →
        analyzeMoodScore backend text = n)
    ∧ (∀ complete, backend = some complete →
        (∀ n, findMood text = some n → ¬(1 ≤ n ∧ n ≤ 5)) →
        invalidMoodResponse (complete (moodPrompt text)) →
        analyzeMoodScore backend text = 3) := by
  refine ⟨rfl, ?_, ?_⟩
  · intro n hn h1 h5
    simp only [analyzeMoodScore, hn]
    rw [if_pos ⟨h1, h5⟩]
  · intro complete hb hout hresp
    have hai : analyzeMoodWithAI complete text = 3 := by
      simp only [analyzeMoodWithAI]
      cases hj : jsParseInt (complete (moodPrompt text)) with
      | none => rfl
      | some s => simp only [if_neg (hresp s hj)]
    cases hm : findMood text with
    | none => simp only [analyzeMoodScore, hm, hb, hai]
    | some n =>
      simp only [analyzeMoodScore, hm, if_neg (hout n hm), hb, hai]

/-- Witness for C5: with no backend, the explicit value 4 from the marker
is returned unmodified; with a backend whose response 好 does not parse as
an integer and an out-of-range explicit value 9 in the text, the default 3
is returned. -/
theorem analyzeMoodScore_spec_witness :
    analyzeMoodScore none "今天心情：4".data = 4 ∧
    analyzeMoodScore (some (fun _ => "好".data)) "心情：9".data = 3 := by
  constructor
  · exact (analyzeMoodScore_spec none "今天心情：4".data).2.1 4 rfl
      (by decide) (by decide)
  · refine (analyzeMoodScore_spec (some (fun _ => "好".data)) "心情：9".data).2.2
      (fun _ => "好".data) rfl ?_ ?_
    · intro n hn
      rw [show findMood "心情：9".data = some 9 from rfl, Option.some_inj] at hn
      omega
    · intro s hs
      rw [show jsParseInt ((fun _ => "好".data) (moodPrompt "心情：9".data)) = none
            from rfl] at hs
      exact absurd hs (by simp)

/-! ## ContentAnalyzer.extractActivitiesWithRules (claim C10) -/

/-- Sentence-ending punctuation the source splits the text on. -/
def sentenceSeps : List Char := ['。', '！', '？']

/-- Clause-separating punctuation that terminates a captured phrase. -/
def clauseSeps : List Char := ['，', '。', '！', '？']

/-- The fixed activity-marker words (go, do, finish, attend, start, end). -/
def activityMarkers : List (List Char) :=
  ["去".data, "做".data, "完成".data, "参加".data, "开始".data, "结束".data]

/-- First capture of the regex that matches the marker followed by at
least one non-clause-separator character: at the leftmost position where
the marker occurs and is followed by a nonempty run of non-separators, the
maximal such run is captured; a marker occurrence followed directly by a
separator or the end of the sentence makes the engine resume scanning at
the next position. -/
def captureAfter (marker : List Char) : List Char → Option (List Char)
  | [] => none
  | c :: rest =>
      if marker.isPrefixOf (c :: rest) then
        let run := ((c :: rest).drop marker.length).takeWhile
          (fun ch => !(clauseSeps.contains ch))
        if run = [] then captureAfter marker rest else some run
      else captureAfter marker rest

/-- Phrases contributed by one sentence: one trimmed capture per marker
whose regex matches, in marker-list order (the source's inner loop). -/
def sentenceActivities (sentence : List Char) : List (List Char) :=
  activityMarkers.filterMap (fun mk => (captureAfter mk sentence).map jsTrim)

/-- Phrases pushed onto the activities array over all sentences in order,
before deduplication. -/
def rawActivities (text : List Char) : List (List Char) :=
  ((splitOnChars sentenceSeps text).map sentenceActivities).foldr (· ++ ·) []

/-- Embedding of `ContentAnalyzer.extractActivitiesWithRules`: the
collected phrases passed through `[...new Set(...)]`. -/
def extractActivitiesWithRules (text : List Char) : List (List Char) :=
  setDedup (rawActivities text)

/-- C10: the heuristic activity extraction returns a duplicate-free list
that keeps exactly the extracted phrases in first-occurrence order: the
result is the insertion-ordered Set closure of the raw phrase list, has no
duplicates, is a subsequence of the raw list, and contains precisely the
raw phrases; on a text repeating the same 去-marked phrase twice the
single phrase 跑步 is returned. -/
theorem extractActivitiesWithRules_spec (text : List Char) :
    extractActivitiesWithRules text = setDedup (rawActivities text)
    ∧ (extractActivitiesWithRules text).Nodup
    ∧ (extractActivitiesWithRules text).Sublist (rawActivities text)
    ∧ (∀ a, a ∈ extractActivitiesWithRules text ↔ a ∈ rawActivities text)
    ∧ extractActivitiesWithRules "我去跑步。我去跑步。".data = ["跑步".data] := by
  refine ⟨rfl, setDedup_nodup _, setDedup_sublist _,
    fun a => mem_setDedup _ a, ?_⟩
  rfl

/-! ## DiaryParser.extractDateInfo (claim C4)

The external `moment` library is abstracted as an environment carrying a
parse oracle (`moment(s, fmt)` together with its `isValid` check, `some`
exactly on valid parses) and the current instant (`new Date()`). -/

/-- Abstraction of the `moment` date parser and the ambient clock. -/
structure MomentEnv (Date : Type) where
  parse : List Char → String → Option Date
  now : Date

/-- The part of the file name before the first dot,
`fileName.split('.')[0]` — for ordinary names this removes the trailing
extension. -/
def takeBeforeDot (fileName : List Char) : List Char :=
  fileName.takeWhile (fun c => !(c = '.'))

/-- Date separators accepted by the body-text date regex. -/
def isDateSep (c : Char) : Bool := c = '-' || c = '/'

/-- Attempt to match the body-date regex (four digits, separator, two
digits, separator, two digits) at the head of the text. -/
def matchDateAt : List Char → Option (List Char)
  | d1 :: d2 :: d3 :: d4 :: s1 :: m1 :: m2 :: s2 :: a1 :: a2 :: _ =>
      if d1.isDigit && d2.isDigit && d3.isDigit && d4.isDigit && isDateSep s1 &&
         m1.isDigit && m2.isDigit && isDateSep s2 && a1.isDigit && a2.isDigit then
        some [d1, d2, d3, d4, s1, m1, m2, s2, a1, a2]
      else none
  | _ => none

/-- Leftmost match of the body-date regex over the whole text. -/
def findDateMatch : List Char → Option (List Char)
  | [] => none
  | c :: rest =>
      match matchDateAt (c :: rest) with
      | some m => some m
      | none => findDateMatch rest

/-- Shape of every string the body-date search can return: four digits, a
dash or slash, two digits, a dash or slash, two digits. -/
def dateShaped (m : List Char) : Prop :=
  ∃ d1 d2 d3 d4 s1 m1 m2 s2 a1 a2,
    m = [d1, d2, d3, d4, s1, m1, m2, s2, a1, a2] ∧
    (d1.isDigit && d2.isDigit && d3.isDigit && d4.isDigit && isDateSep s1 &&
     m1.isDigit && m2.isDigit && isDateSep s2 && a1.isDigit && a2.isDigit) = true

/-- Embedding of `DiaryParser.extractDateInfo`: parse the file name before
its first dot against the configured format; if invalid, parse the first
body-date match as YYYY-MM-DD; if that also fails, return the current
date. Total by construction — it never raises. -/
def extractDateInfo {Date : Type} (env : MomentEnv Date) (dateFormat : String)
    (fileName content : List Char) : Date :=
  match env.parse (takeBeforeDot fileName) dateFormat with
  | some d => d
  | none =>
      match findDateMatch content with
      | some m =>
          match env.parse m "YYYY-MM-DD" with
          | some d => d
          | none => env.now
      | none => env.now

theorem matchDateAt_shape (l m : List Char) (h : matchDateAt l = some m) :
    dateShaped m := by
  unfold matchDateAt at h
  split at h
  · next d1 d2 d3 d4 s1 m1 m2 s2 a1 a2 rest =>
    split at h
    · next hcond =>
      exact ⟨d1, d2, d3, d4, s1, m1, m2, s2, a1, a2,
        (Option.some_inj.mp h).symm, hcond⟩
    · exact absurd h (by simp)
  · exact absurd h (by simp)

theorem findDateMatch_shape (content m : List Char)
    (h : findDateMatch content = some m) : dateShaped m := by
  induction content with
  | nil => exact absurd h (by simp [findDateMatch])
  | cons c rest ih =>
    rw [findDateMatch] at h
    cases hm : matchDateAt (c :: rest) with
    | some m2 =>
      rw [hm] at h
      exact (Option.some_inj.mp h) ▸ matchDateAt_shape _ _ hm
    | none =>
      rw [hm] at h
      exact ih h

/-- C4: date resolution first parses the extension-stripped identifier
against the configured format and returns any valid result; when that
parse is invalid it searches the body for the first four-digit,
separator, two-digit, separator, two-digit date pattern (separators dash
or slash, the written forms YYYY-MM-DD and YYYY/MM/DD) and parses it as
YYYY-MM-DD; when neither yields a valid date it returns the current
date/time — being a total function, it never raises. -/
theorem extractDateInfo_spec {Date : Type} (env : MomentEnv Date)
    (dateFormat : String) (fileName content : List Char) :
    (∀ d, env.parse (takeBeforeDot fileName) dateFormat = some d →
        extractDateInfo env dateFormat fileName content = d)
    ∧ (env.parse (takeBeforeDot fileName) dateFormat = none →
        (∀ m, findDateMatch content = some m →
          (∀ d, env.parse m "YYYY-MM-DD" = some d →
              extractDateInfo env dateFormat fileName content = d)
          ∧ (env.parse m "YYYY-MM-DD" = none →
              extractDateInfo env dateFormat fileName content = env.now))
        ∧ (findDateMatch content = none →
            extractDateInfo env dateFormat fileName content = env.now))
    ∧ (∀ m, findDateMatch content = some m → dateShaped m) := by
  refine ⟨?_, ?_, fun m hm => findDateMatch_shape content m hm⟩
  · intro d hd
    simp only [extractDateInfo, hd]
  · intro hnone
    constructor
    · intro m hm
      constructor
      · intro d hd
        simp only [extractDateInfo, hnone, hm, hd]
      · intro hd
        simp only [extractDateInfo, hnone, hm, hd]
    · intro hm
      simp only [extractDateInfo, hnone, hm]

/-- Concrete oracle for the C4 witness: valid exactly on the identifier
2024-01-15 against format YYYY-MM-DD (giving day number 1) and on the
body string 2024-02-03 against YYYY-MM-DD (giving day number 7). -/
def testMomentEnv : MomentEnv Int :=
  { parse := fun s fmt =>
      if s = "2024-01-15".data ∧ fmt = "YYYY-MM-DD" then some 1
      else if s = "2024-02-03".data ∧ fmt = "YYYY-MM-DD" then some 7
      else none
    now := 0 }

/-- Witness for C4: an identifier exactly matching the format resolves to
that exact date before any extension, and when the file name is invalid
for the format the first body date is used. -/
theorem extractDateInfo_spec_witness :
    extractDateInfo testMomentEnv "YYYY-MM-DD" "2024-01-15.md".data
      "无日期".data = 1 ∧
    extractDateInfo testMomentEnv "WEIRD" "notes.md".data
      "日记 2024-02-03 晴".data = 7 := by
  constructor
  · exact (extractDateInfo_spec testMomentEnv "YYYY-MM-DD" "2024-01-15.md".data
      "无日期".data).1 1 (by decide)
  · exact (((extractDateInfo_spec testMomentEnv "WEIRD" "notes.md".data
      "日记 2024-02-03 晴".data).2.1 (by decide)).1 "2024-02-03".data
      (by decide)).1 7 (by decide)

/-! ## TimelineGenerator.generateTimelineData (claims C1 and C9)

The `uuidv4()` identity source and the zh-CN locale date formatter are
abstracted as function parameters `fresh` (invocation index to id) and
`fmtDate`. -/

/-- Embedding of `TimelineGenerator.generateTitle`: the locale-formatted
long date followed by the fixed suffix word 的日记. -/
def generateTitle (fmtDate : Int → String) (date : Int) : String :=
  fmtDate date ++ " 的日记"

/-- One timeline entry for one (diary, analysis) pair. The title uses the
JavaScript or-else `diary.metadata.title || generateTitle(...)`: the only
falsy string is the empty string, so an empty present title also falls
back to the generated title. -/
def mkTimelineEntry (idv : String) (fmtDate : Int → String)
    (diary : DiaryContent) (result : AnalysisResult) : TimelineEntry :=
  { id := idv
    date := diary.date
    title :=
      match diary.metadata.title with
      | some t => if t = "" then generateTitle fmtDate diary.date else t
      | none => generateTitle fmtDate diary.date
    summary := result.summary
    keywords := result.keywords
    moodScore := result.moodScore
    activities := result.activities }

/-- Index-for-index body of the source's `diaries.map((diary, index))`. -/
def buildEntries (fresh : Nat → String) (fmtDate : Int → String) :
    Nat → List DiaryContent → List AnalysisResult → List TimelineEntry
  | _, [], _ => []
  | _, _ :: _, [] => []
  | i, d :: ds, r :: rs =>
      mkTimelineEntry (fresh i) fmtDate d r ::
        buildEntries fresh fmtDate (i + 1) ds rs

/-- The error message thrown on a length mismatch. -/
def lengthMismatchMsg : String :=
  "Diaries and analyses arrays must have the same length"

/-- Embedding of `TimelineGenerator.generateTimelineData`: throw on a
length mismatch, otherwise emit one entry per index. -/
def generateTimelineData (fresh : Nat → String) (fmtDate : Int → String)
    (diaries : List DiaryContent) (analyses : List AnalysisResult) :
    Except String (List TimelineEntry) :=
  if diaries.length = analyses.length then
    Except.ok (buildEntries fresh fmtDate 0 diaries analyses)
  else
    Except.error lengthMismatchMsg

theorem buildEntries_length (fresh : Nat → String) (fmtDate : Int → String) :
    ∀ (ds : List DiaryContent) (rs : List AnalysisResult) (i : Nat),
      ds.length = rs.length →
      (buildEntries fresh fmtDate i ds rs).length = ds.length := by
  intro ds
  induction ds with
  | nil => intro rs i _; cases rs <;> rfl
  | cons d ds2 ih =>
    intro rs i hlen
    cases rs with
    | nil => exact absurd hlen (by simp)
    | cons r rs2 =>
      simp only [buildEntries, List.length_cons]
      rw [ih rs2 (i + 1) (by simpa using hlen)]

theorem buildEntries_get (fresh : Nat → String) (fmtDate : Int → String) :
    ∀ (ds : List DiaryContent) (rs : List AnalysisResult) (i j : Nat)
      (h1 : j < ds.length) (h2 : j < rs.length)
      (h3 : j < (buildEntries fresh fmtDate i ds rs).length),
      (buildEntries fresh fmtDate i ds rs).get ⟨j, h3⟩ =
        mkTimelineEntry (fresh (i + j)) fmtDate
          (ds.get ⟨j, h1⟩) (rs.get ⟨j, h2⟩) := by
  intro ds
  induction ds with
  | nil => intro rs i j h1; exact absurd h1 (by simp)
  | cons d ds2 ih =>
    intro rs i j h1 h2 h3
    cases rs with
    | nil => exact absurd h2 (by simp)
    | cons r rs2 =>
      cases j with
      | zero => simp [buildEntries, mkTimelineEntry]
      | succ j2 =>
        have h1b : j2 < ds2.length := by simpa using h1
        have h2b : j2 < rs2.length := by simpa using h2
        have h3b : j2 < (buildEntries fresh fmtDate (i + 1) ds2 rs2).length := by
          simpa [buildEntries] using h3
        have := ih rs2 (i + 1) j2 h1b h2b h3b
        simp only [buildEntries, List.get_cons_succ]
        rw [this]
        have harith : i + 1 + j2 = i + (j2 + 1) := by omega
        rw [harith]

/-- C1: `generateTimelineData` fails, with the length-mismatch error,
exactly when the two lists have different lengths; on equal lengths it
returns a list of the same length whose entry at each index carries the
date of the record at that index and the summary, keywords, mood score and
activities of the analysis result at that index. -/
theorem generateTimelineData_spec (fresh : Nat → String)
    (fmtDate : Int → String) (ds : List DiaryContent)
    (rs : List AnalysisResult) :
    ((∃ es, generateTimelineData fresh fmtDate ds rs = Except.ok es) ↔
        ds.length = rs.length)
    ∧ (ds.length ≠ rs.length →
        generateTimelineData fresh fmtDate ds rs =
          Except.error lengthMismatchMsg)
    ∧ (∀ es, generateTimelineData fresh fmtDate ds rs = Except.ok es →
        es.length = ds.length ∧
        ∀ j (h1 : j < ds.length) (h2 : j < rs.length) (h3 : j < es.length),
          (es.get ⟨j, h3⟩).date = (ds.get ⟨j, h1⟩).date ∧
          (es.get ⟨j, h3⟩).summary = (rs.get ⟨j, h2⟩).summary ∧
          (es.get ⟨j, h3⟩).keywords = (rs.get ⟨j, h2⟩).keywords ∧
          (es.get ⟨j, h3⟩).moodScore = (rs.get ⟨j, h2⟩).moodScore ∧
          (es.get ⟨j, h3⟩).activities = (rs.get ⟨j, h2⟩).activities) := by
  refine ⟨?_, ?_, ?_⟩
  · constructor
    · rintro ⟨es, hes⟩
      by_contra hne
      rw [generateTimelineData, if_neg hne] at hes
      exact absurd hes (by simp)
    · intro heq
      exact ⟨buildEntries fresh fmtDate 0 ds rs,
        by rw [generateTimelineData, if_pos heq]⟩
  · intro hne
    rw [generateTimelineData, if_neg hne]
  · intro es hes
    have heq : ds.length = rs.length := by
      by_contra hne
      rw [generateTimelineData, if_neg hne] at hes
      exact absurd hes (by simp)
    rw [generateTimelineData, if_pos heq] at hes
    have hes2 : es = buildEntries fresh fmtDate 0 ds rs :=
      (Except.ok.inj hes).symm
    subst hes2
    refine ⟨buildEntries_length fresh fmtDate ds rs 0 heq, ?_⟩
    intro j h1 h2 h3
    rw [buildEntries_get fresh fmtDate ds rs 0 j h1 h2 h3]
    simp [mkTimelineEntry]

/-- Sample record with a nonempty title, for the witnesses. -/
def titledDiary : DiaryContent :=
  { date := 5, content := "c", metadata := { title := some "早晨", tags := [], mood := none } }

/-- Sample record with no title. -/
def untitledDiary : DiaryContent :=
  { date := 8, content := "c", metadata := { title := none, tags := [], mood := none } }

/-- Sample analysis result for the witnesses. -/
def sampleResult : AnalysisResult :=
  { keywords := ["k1", "k2"], moodScore := 4, summary := "总结", activities := ["跑步"] }

/-- Witness for C1: on a mismatched pair (one record, no results) the
length-mismatch error is returned, and on an equal-length pair the entry
at index 0 carries the record's date and the result's fields. -/
theorem generateTimelineData_spec_witness :
    generateTimelineData (fun _ => "u") (fun _ => "d") [titledDiary] [] =
      Except.error lengthMismatchMsg ∧
    ∀ es, generateTimelineData (fun _ => "u") (fun _ => "d")
        [titledDiary] [sampleResult] = Except.ok es →
      es.length = 1 := by
  constructor
  · exact (generateTimelineData_spec (fun _ => "u") (fun _ => "d")
      [titledDiary] []).2.1 (by decide)
  · intro es hes
    have h := ((generateTimelineData_spec (fun _ => "u") (fun _ => "d")
      [titledDiary] [sampleResult]).2.2 es hes).1
    simpa using h

/-! ## Title generation (claim C9)

The claim that the emitted title equals the metadata title whenever that
title is present fails on a present-but-empty title: the JavaScript
or-else treats the empty string as falsy and falls back to the generated
label. -/

/-- Record whose metadata title is present but empty (for example produced
by a heading line consisting only of whitespace). -/
def emptyTitleDiary : DiaryContent :=
  { date := 0, content := "",
    metadata := { title := some "", tags := [], mood := none } }

/-- A fixed stand-in for the zh-CN long-date locale formatter. -/
def cnDateLabel : Int → String := fun _ => "2024年1月1日"

/-- Counterexample for C9 as stated: the record's metadata title is
present (the empty string), yet the emitted timeline entry's title is the
generated date label, not that metadata title. -/
theorem generateTimelineData_title_counterexample :
    emptyTitleDiary.metadata.title = some "" ∧
    generateTimelineData (fun _ => "id0") cnDateLabel
        [emptyTitleDiary] [sampleResult] =
      Except.ok [mkTimelineEntry "id0" cnDateLabel emptyTitleDiary sampleResult] ∧
    (mkTimelineEntry "id0" cnDateLabel emptyTitleDiary sampleResult).title =
      "2024年1月1日 的日记" ∧
    (mkTimelineEntry "id0" cnDateLabel emptyTitleDiary sampleResult).title ≠ "" := by
  refine ⟨rfl, rfl, rfl, by decide⟩

/-- C9 (amended): the emitted timeline entry's title equals the record's
metadata title whenever that title is present and nonempty; when the title
is absent or empty it equals the generated label, the locale-formatted
date followed by the fixed suffix word 的日记. -/
theorem generateTimelineData_title_spec (fresh : Nat → String)
    (fmtDate : Int → String) (ds : List DiaryContent)
    (rs : List AnalysisResult) (es : List TimelineEntry)
    (hes : generateTimelineData fresh fmtDate ds rs = Except.ok es) :
    ∀ j (h1 : j < ds.length) (h3 : j < es.length),
      (∀ t, (ds.get ⟨j, h1⟩).metadata.title = some t → t ≠ "" →
          (es.get ⟨j, h3⟩).title = t)
      ∧ ((ds.get ⟨j, h1⟩).metadata.title = none ∨
           (ds.get ⟨j, h1⟩).metadata.title = some "" →
          (es.get ⟨j, h3⟩).title = generateTitle fmtDate (ds.get ⟨j, h1⟩).date)
      ∧ generateTitle fmtDate (ds.get ⟨j, h1⟩).date =
          fmtDate (ds.get ⟨j, h1⟩).date ++ " 的日记" := by
  have heq : ds.length = rs.length := by
    by_contra hne
    rw [generateTimelineData, if_neg hne] at hes
    exact absurd hes (by simp)
  rw [generateTimelineData, if_pos heq] at hes
  have hes2 : es = buildEntries fresh fmtDate 0 ds rs :=
    (Except.ok.inj hes).symm
  subst hes2
  intro j h1 h3
  have h2 : j < rs.length := heq ▸ h1
  rw [buildEntries_get fresh fmtDate ds rs 0 j h1 h2 h3]
  refine ⟨?_, ?_, rfl⟩
  · intro t ht hne
    rw [List.get_eq_getElem] at ht
    simp [mkTimelineEntry, ht, hne]
  · rintro (ht | ht) <;>
      (rw [List.get_eq_getElem] at ht; simp [mkTimelineEntry, ht])

/-- Witness for the amended C9: for a pair of records, one with nonempty
title 早晨 and one with no title, the first emitted entry keeps the
metadata title and the second carries the generated label. -/
theorem generateTimelineData_title_spec_witness :
    ((buildEntries (fun _ => "u") cnDateLabel 0 [titledDiary, untitledDiary]
        [sampleResult, sampleResult]).get ⟨0, by decide⟩).title = "早晨" ∧
    ((buildEntries (fun _ => "u") cnDateLabel 0 [titledDiary, untitledDiary]
        [sampleResult, sampleResult]).get ⟨1, by decide⟩).title =
      generateTitle cnDateLabel untitledDiary.date := by
  constructor
  · exact (generateTimelineData_title_spec (fun _ => "u") cnDateLabel
      [titledDiary, untitledDiary] [sampleResult, sampleResult] _ rfl
      0 (by decide) (by decide)).1 "早晨" rfl (by decide)
  · exact (generateTimelineData_title_spec (fun _ => "u") cnDateLabel
      [titledDiary, untitledDiary] [sampleResult, sampleResult] _ rfl
      1 (by decide) (by decide)).2.1 (Or.inl rfl)

end ObsPlugin
